import Mathlib

/-!
Verification of the dynsampler-go sampling library.

The Go source is shallowly embedded: Go maps become association lists
(`List (String × _)`), Go `float64` becomes the `GoFloat` model below
(NaN / ±Inf / an exact rational), machine integers become `Int`/`Nat`
with exact arithmetic, and stateful methods become functions from a
state record to a result and a new state record.
-/

/-- Model of a Go `float64` under exact arithmetic: NaN, one of the two
infinities, or a finite value represented exactly by a rational.
Rounding of finite results is not modelled (finite operations are exact);
propagation of the special values follows IEEE 754 as implemented by Go.
Signed zero is not modelled (`fin 0` behaves as `+0`). -/
inductive GoFloat where
  | nan
  | posInf
  | negInf
  | fin (q : ℚ)
deriving DecidableEq, Repr

namespace GoFloat

/-- Go `x + y` on float64. -/
def add : GoFloat → GoFloat → GoFloat
  | nan, _ => nan
  | _, nan => nan
  | posInf, negInf => nan
  | negInf, posInf => nan
  | posInf, _ => posInf
  | _, posInf => posInf
  | negInf, _ => negInf
  | _, negInf => negInf
  | fin a, fin b => fin (a + b)

/-- Go unary minus on float64. -/
def neg : GoFloat → GoFloat
  | nan => nan
  | posInf => negInf
  | negInf => posInf
  | fin q => fin (-q)

/-- Go `x - y` on float64 (identical to `x + (-y)` in IEEE 754). -/
def sub (x y : GoFloat) : GoFloat := add x (neg y)

/-- Go `x * y` on float64. -/
def mul : GoFloat → GoFloat → GoFloat
  | nan, _ => nan
  | _, nan => nan
  | posInf, posInf => posInf
  | posInf, negInf => negInf
  | negInf, posInf => negInf
  | negInf, negInf => posInf
  | posInf, fin q => if q = 0 then nan else if 0 < q then posInf else negInf
  | fin q, posInf => if q = 0 then nan else if 0 < q then posInf else negInf
  | negInf, fin q => if q = 0 then nan else if 0 < q then negInf else posInf
  | fin q, negInf => if q = 0 then nan else if 0 < q then negInf else posInf
  | fin a, fin b => fin (a * b)

/-- Go `x / y` on float64 (division by zero yields an infinity or NaN,
never a run-time error). -/
def div : GoFloat → GoFloat → GoFloat
  | nan, _ => nan
  | _, nan => nan
  | posInf, posInf => nan
  | posInf, negInf => nan
  | negInf, posInf => nan
  | negInf, negInf => nan
  | posInf, fin q => if q < 0 then negInf else posInf
  | negInf, fin q => if q < 0 then posInf else negInf
  | fin _, posInf => fin 0
  | fin _, negInf => fin 0
  | fin a, fin b =>
    if b = 0 then
      if a = 0 then nan else if 0 < a then posInf else negInf
    else fin (a / b)

/-- Go `math.Max`: NaN if either argument is NaN, `+Inf` if either is `+Inf`,
otherwise the larger argument. -/
def fmax : GoFloat → GoFloat → GoFloat
  | nan, _ => nan
  | _, nan => nan
  | posInf, _ => posInf
  | _, posInf => posInf
  | negInf, b => b
  | a, negInf => a
  | fin a, fin b => fin (max a b)

/-- Go `math.Ceil`. -/
def ceil : GoFloat → GoFloat
  | nan => nan
  | posInf => posInf
  | negInf => negInf
  | fin q => fin ⌈q⌉

/-- Go `math.IsNaN`. -/
def isNaN : GoFloat → Bool
  | nan => true
  | _ => false

/-- Whether the value is finite (a real number). -/
def isFinite : GoFloat → Bool
  | fin _ => true
  | _ => false

/-- Go `x <= y` on float64: any comparison with NaN is false. -/
def le : GoFloat → GoFloat → Bool
  | nan, _ => false
  | _, nan => false
  | negInf, _ => true
  | _, posInf => true
  | posInf, _ => false
  | _, negInf => false
  | fin a, fin b => a ≤ b

/-- Go conversion `int(x)` from float64, which truncates toward zero.
For NaN, the infinities and out-of-range values the Go conversion is
implementation-dependent; this model uses exact truncation for every
finite value and an arbitrary fixed result for NaN and the infinities. -/
def toInt : GoFloat → Int
  | nan => 0
  | posInf => 0
  | negInf => 0
  | fin q => if 0 ≤ q then ⌊q⌋ else -⌊-q⌋

/-- Go conversion `float64(n)` from an integer (exact in this model;
Go rounds only above 2^53, far outside the rates produced here). -/
def ofInt (n : Int) : GoFloat := fin (n : ℚ)

end GoFloat

/-!
## Rate calculator (`calculateSampleRates`, from the source file holding the
shared key-based calculation logic)

`math.Log10` is transcendental and has no exact rational value, so the
embedding takes it as an explicit function parameter `log10`; every theorem
below is proved for an arbitrary such function, hence in particular for the
real base-10 logarithm.
-/

open GoFloat in
/-- The body of the `for _, key := range keys` loop shared by
`calculateSampleRates` and `calculateSampleRates_original`, given the
already-computed `goalForKey0 = max(1, log10(count)*goalRatio)`.
Returns the emitted rate for the key and the `extra` budget passed on. -/
def rateBody (goalForKey0 count : GoFloat) (keysRemaining : Int)
    (extra : GoFloat) : Int × GoFloat :=
  -- take this key's share of the extra and pass the rest along
  let extraForKey := div extra (ofInt keysRemaining)
  let goalForKey := add goalForKey0 extraForKey
  let extra1 := sub extra extraForKey
  if le count goalForKey then
    -- fewer samples than the allotted number: rate 1, redistribute the slack
    (1, add extra1 (sub goalForKey count))
  else
    -- more samples than allotted: round the ratio up, fall back to 1 on NaN
    let rate := ceil (div count goalForKey)
    let emitted : Int := if rate.isNaN then 1 else rate.toInt
    (emitted, add extra1 (sub goalForKey (div count (ofInt emitted))))

open GoFloat in
/-- The `for _, key := range keys` loop shared by `calculateSampleRates` and
`calculateSampleRates_original`, processing the remaining `keys` with the
running `keysRemaining` counter and `extra` budget. -/
def rateLoop (log10 : GoFloat → GoFloat) (goalRatio : GoFloat)
    (buckets : List (String × GoFloat)) :
    List String → Int → GoFloat → List (String × Int)
  | [], _, _ => []
  | key :: rest, keysRemaining, extra =>
    let count := fmax (fin 1) ((buckets.lookup key).getD (fin 0))
    -- take the max of 1 or my log10 share of the total
    let goalForKey0 := fmax (fin 1) (mul (log10 count) goalRatio)
    let step := rateBody goalForKey0 count keysRemaining extra
    (key, step.1) :: rateLoop log10 goalRatio buckets rest (keysRemaining - 1) step.2

open GoFloat in
/-- `_calculateSingleBucketRate` from the source (the leading underscore is
dropped for Lean). -/
def calculateSingleBucketRate (log10 : GoFloat → GoFloat)
    (goalRatio : GoFloat) (count0 : GoFloat) : Int :=
  let count := fmax (fin 1) count0
  let goalForKey := fmax (fin 1) (mul (log10 count) goalRatio)
  if le count goalForKey then 1
  else
    let rate := ceil (div count goalForKey)
    if rate.isNaN then 1 else rate.toInt

/-- The keys of the map, iterated in sorted order as the source does. -/
def sortedKeys (buckets : List (String × GoFloat)) : List String :=
  (buckets.map Prod.fst).insertionSort (· ≤ ·)

/-- `calculateSampleRates` from the source: the optimized calculator with the
single-bucket bypass. -/
def calculateSampleRates (log10 : GoFloat → GoFloat) (goalRatio : GoFloat)
    (buckets : List (String × GoFloat)) : List (String × Int) :=
  if buckets.length = 1 then
    match buckets with
    | (k, v) :: _ => [(k, calculateSingleBucketRate log10 goalRatio v)]
    | [] => []
  else
    rateLoop log10 goalRatio buckets (sortedKeys buckets)
      (buckets.length : Int) (GoFloat.fin 0)

/-- `calculateSampleRates_original` from the source: always sorts and runs the
redistribution loop, with no single-bucket bypass. -/
def calculateSampleRates_original (log10 : GoFloat → GoFloat)
    (goalRatio : GoFloat) (buckets : List (String × GoFloat)) :
    List (String × Int) :=
  rateLoop log10 goalRatio buckets (sortedKeys buckets)
    (buckets.length : Int) (GoFloat.fin 0)

/-!
## Invariants of the redistribution loop
-/

/-- The shapes the running `extra` budget can take: NaN, `+Inf`, or a
nonnegative finite value. -/
def ExtraOk (e : GoFloat) : Prop :=
  e = .nan ∨ e = .posInf ∨ ∃ q : ℚ, e = .fin q ∧ 0 ≤ q

theorem extraOk_zero : ExtraOk (.fin 0) := Or.inr (Or.inr ⟨0, rfl, le_refl 0⟩)

/-- `max(1, x)` is NaN, `+Inf`, or a finite value at least 1. -/
theorem fmax_one_cases (x : GoFloat) :
    GoFloat.fmax (.fin 1) x = .nan ∨ GoFloat.fmax (.fin 1) x = .posInf
      ∨ ∃ q : ℚ, GoFloat.fmax (.fin 1) x = .fin q ∧ 1 ≤ q := by
  cases x with
  | nan => exact Or.inl rfl
  | posInf => exact Or.inr (Or.inl rfl)
  | negInf => exact Or.inr (Or.inr ⟨1, rfl, le_refl 1⟩)
  | fin q => exact Or.inr (Or.inr ⟨max 1 q, rfl, le_max_left 1 q⟩)

theorem add_fin_zero (x : GoFloat) : GoFloat.add x (.fin 0) = x := by
  cases x <;> simp [GoFloat.add]

theorem rateBody_ok (g0 : GoFloat) (c : ℚ) (n : Int) (extra : GoFloat)
    (hg0 : g0 = .nan ∨ g0 = .posInf ∨ ∃ g : ℚ, g0 = .fin g ∧ 1 ≤ g)
    (hc : 1 ≤ c) (hn : 1 ≤ n) (hextra : ExtraOk extra) :
    1 ≤ (rateBody g0 (.fin c) n extra).1 ∧ ExtraOk (rateBody g0 (.fin c) n extra).2 := by
  have hnQ : (0 : ℚ) < (n : ℚ) := by exact_mod_cast hn.trans_lt' (by norm_num)
  have hnQne : (n : ℚ) ≠ 0 := ne_of_gt hnQ
  have hnneg : ¬ ((n : ℚ) < 0) := not_lt.mpr (le_of_lt hnQ)
  rcases hextra with he | he | ⟨e, he, hePos⟩ <;> subst he
  · -- extra = NaN: everything downstream is NaN and the rate falls back to 1
    rcases hg0 with h | h | ⟨g, h, _⟩ <;> subst h <;>
      simp [rateBody, GoFloat.div, GoFloat.ofInt, GoFloat.add, GoFloat.sub,
        GoFloat.neg, GoFloat.le, GoFloat.ceil, GoFloat.isNaN, ExtraOk, hnQne, hnneg]
  · -- extra = +Inf: goalForKey is +Inf or NaN, the rate is 1, extra becomes NaN
    rcases hg0 with h | h | ⟨g, h, _⟩ <;> subst h <;>
      simp [rateBody, GoFloat.div, GoFloat.ofInt, GoFloat.add, GoFloat.sub,
        GoFloat.neg, GoFloat.le, GoFloat.ceil, GoFloat.isNaN, ExtraOk, hnQne, hnneg]
  · -- extra finite and nonnegative
    have heDiv : (0 : ℚ) ≤ e / (n : ℚ) := div_nonneg hePos (le_of_lt hnQ)
    have heSub : (0 : ℚ) ≤ e - e / (n : ℚ) :=
      sub_nonneg.mpr (div_le_self hePos (by exact_mod_cast hn))
    rcases hg0 with h | h | ⟨g, h, hg⟩ <;> subst h
    · simp [rateBody, GoFloat.div, GoFloat.ofInt, GoFloat.add, GoFloat.sub,
        GoFloat.neg, GoFloat.le, GoFloat.ceil, GoFloat.isNaN, ExtraOk, hnQne, hnneg]
    · simp [rateBody, GoFloat.div, GoFloat.ofInt, GoFloat.add, GoFloat.sub,
        GoFloat.neg, GoFloat.le, GoFloat.ceil, GoFloat.isNaN, ExtraOk, hnQne, hnneg]
    · -- all quantities finite: exact rational reasoning
      have hG : (1 : ℚ) ≤ g + e / (n : ℚ) := le_add_of_le_of_nonneg hg heDiv
      have hGpos : (0 : ℚ) < g + e / (n : ℚ) := lt_of_lt_of_le one_pos hG
      have hGne : g + e / (n : ℚ) ≠ 0 := ne_of_gt hGpos
      by_cases hcmp : c ≤ g + e / (n : ℚ)
      · refine ⟨?_, ?_⟩
        · simp [rateBody, GoFloat.div, GoFloat.ofInt, GoFloat.add, GoFloat.sub,
            GoFloat.neg, GoFloat.le, hnQne, hnneg, hcmp]
        · simp [rateBody, GoFloat.div, GoFloat.ofInt, GoFloat.add, GoFloat.sub,
            GoFloat.neg, GoFloat.le, hnQne, hnneg, hcmp, ExtraOk]
          linarith [sub_nonneg.mpr hcmp]
      · -- the key is over its goal: rate = ceil(count/goal) ≥ 1
        have hcPos : (0 : ℚ) < c := lt_of_lt_of_le one_pos hc
        have hratioPos : (0 : ℚ) < c / (g + e / (n : ℚ)) := div_pos hcPos hGpos
        have hceilPos : (0 : Int) < ⌈c / (g + e / (n : ℚ))⌉ := Int.ceil_pos.mpr hratioPos
        have hceilQ : (0 : ℚ) ≤ (⌈c / (g + e / (n : ℚ))⌉ : ℚ) := by exact_mod_cast hceilPos.le
        have hrne : ((⌈c / (g + e / (n : ℚ))⌉ : ℚ)) ≠ 0 := by
          exact_mod_cast ne_of_gt hceilPos
        have hfloor : ⌊((⌈c / (g + e / (n : ℚ))⌉ : ℚ))⌋ = ⌈c / (g + e / (n : ℚ))⌉ :=
          Int.floor_intCast _
        have hcr : c / ((⌈c / (g + e / (n : ℚ))⌉ : ℚ)) ≤ g + e / (n : ℚ) := by
          rw [div_le_iff₀ (by exact_mod_cast hceilPos)]
          calc c ≤ (g + e / (n : ℚ)) * (c / (g + e / (n : ℚ))) := by
                rw [mul_div_cancel₀ _ hGne]
            _ ≤ (g + e / (n : ℚ)) * (⌈c / (g + e / (n : ℚ))⌉ : ℚ) :=
                mul_le_mul_of_nonneg_left (Int.le_ceil _) (le_of_lt hGpos)
        refine ⟨?_, ?_⟩
        · simp [rateBody, GoFloat.div, GoFloat.ofInt, GoFloat.add, GoFloat.sub,
            GoFloat.neg, GoFloat.le, GoFloat.ceil, GoFloat.isNaN, GoFloat.toInt,
            hnQne, hnneg, hcmp, hGne, hceilQ, hfloor]
          exact hratioPos
        · simp [rateBody, GoFloat.div, GoFloat.ofInt, GoFloat.add, GoFloat.sub,
            GoFloat.neg, GoFloat.le, GoFloat.ceil, GoFloat.isNaN, GoFloat.toInt,
            hnQne, hnneg, hcmp, hGne, hceilQ, hfloor, hrne, ExtraOk]
          linarith [sub_nonneg.mpr hcr]

theorem isFinite_iff {x : GoFloat} : x.isFinite = true ↔ ∃ q : ℚ, x = .fin q := by
  cases x <;> simp [GoFloat.isFinite]

theorem lookup_getD_finite {l : List (String × GoFloat)} {k : String}
    (hfin : ∀ p ∈ l, (Prod.snd p).isFinite = true) :
    ((l.lookup k).getD (.fin 0)).isFinite = true := by
  induction l with
  | nil => simp [List.lookup, GoFloat.isFinite]
  | cons p rest ih =>
    obtain ⟨k1, v1⟩ := p
    rw [List.lookup_cons]
    cases h : k == k1
    · simp only [h]
      exact ih (fun q hq => hfin q (List.mem_cons_of_mem _ hq))
    · simp only [h, Option.getD_some]
      exact hfin (k1, v1) (List.mem_cons_self _ rest)

theorem count_fin (l : List (String × GoFloat)) (k : String)
    (hfin : ∀ p ∈ l, (Prod.snd p).isFinite = true) :
    ∃ c : ℚ, GoFloat.fmax (.fin 1) ((l.lookup k).getD (.fin 0)) = .fin c ∧ 1 ≤ c := by
  obtain ⟨q, hq⟩ := isFinite_iff.mp (lookup_getD_finite hfin (k := k))
  exact ⟨max 1 q, by rw [hq]; rfl, le_max_left 1 q⟩

theorem rateLoop_spec (log10 : GoFloat → GoFloat) (goalRatio : GoFloat)
    (buckets : List (String × GoFloat))
    (hfin : ∀ p ∈ buckets, (Prod.snd p).isFinite = true) :
    ∀ (keys : List String) (n : Int) (extra : GoFloat),
      (keys.length : Int) ≤ n → ExtraOk extra →
      (rateLoop log10 goalRatio buckets keys n extra).map Prod.fst = keys
      ∧ ∀ p ∈ rateLoop log10 goalRatio buckets keys n extra, 1 ≤ p.2 := by
  intro keys
  induction keys with
  | nil =>
    intro n extra _ _
    simp [rateLoop]
  | cons key rest ih =>
    intro n extra hlen hextra
    have hn : 1 ≤ n := by
      rw [List.length_cons] at hlen
      push_cast at hlen
      omega
    obtain ⟨c, hcEq, hc⟩ := count_fin buckets key hfin
    rw [rateLoop, hcEq]
    have hbody := rateBody_ok
      (GoFloat.fmax (.fin 1) (GoFloat.mul (log10 (.fin c)) goalRatio)) c n extra
      (fmax_one_cases _) hc hn hextra
    have hrest : ((rest.length : Int)) ≤ n - 1 := by
      rw [List.length_cons] at hlen
      push_cast at hlen
      omega
    obtain ⟨ihMap, ihPos⟩ := ih (n - 1) _ hrest hbody.2
    refine ⟨?_, ?_⟩
    · simpa using ihMap
    · intro p hp
      rcases List.mem_cons.mp hp with h | h
      · rw [h]
        exact hbody.1
      · exact ihPos p h

theorem singleBucket_eq_body (log10 : GoFloat → GoFloat) (goalRatio v : GoFloat) :
    calculateSingleBucketRate log10 goalRatio v =
      (rateBody
        (GoFloat.fmax (.fin 1) (GoFloat.mul (log10 (GoFloat.fmax (.fin 1) v)) goalRatio))
        (GoFloat.fmax (.fin 1) v) 1 (.fin 0)).1 := by
  unfold calculateSingleBucketRate rateBody
  norm_num [GoFloat.ofInt, GoFloat.div, add_fin_zero]
  split_ifs <;> simp

theorem calculateSingleBucketRate_pos (log10 : GoFloat → GoFloat)
    (goalRatio v : GoFloat) (hv : v.isFinite = true) :
    1 ≤ calculateSingleBucketRate log10 goalRatio v := by
  obtain ⟨q, hq⟩ := isFinite_iff.mp hv
  subst hq
  rw [singleBucket_eq_body]
  have hq1 : GoFloat.fmax (.fin 1) (.fin q) = .fin (max 1 q) := rfl
  rw [hq1]
  exact (rateBody_ok _ (max 1 q) 1 (.fin 0) (fmax_one_cases _) (le_max_left 1 q)
    (le_refl 1) extraOk_zero).1

/-- C1: for every real `goalRatio` (including the non-finite values) and every
non-empty map from keys to finite real counts, `calculateSampleRates` returns
a map with exactly the keys of `buckets`, every one of them bound to an
integer rate of at least 1. -/
theorem calculateSampleRates_keys_rates (log10 : GoFloat → GoFloat)
    (goalRatio : GoFloat) (buckets : List (String × GoFloat))
    (hne : buckets ≠ [])
    (hfin : ∀ p ∈ buckets, (Prod.snd p).isFinite = true) :
    ((calculateSampleRates log10 goalRatio buckets).map Prod.fst).Perm
      (buckets.map Prod.fst)
    ∧ ∀ p ∈ calculateSampleRates log10 goalRatio buckets, 1 ≤ p.2 := by
  by_cases hlen : buckets.length = 1
  · match buckets, hlen with
    | [(k, v)], _ =>
      have hcalc : calculateSampleRates log10 goalRatio [(k, v)]
          = [(k, calculateSingleBucketRate log10 goalRatio v)] := by
        simp [calculateSampleRates]
      rw [hcalc]
      refine ⟨by simp, ?_⟩
      intro p hp
      rw [List.mem_singleton] at hp
      rw [hp]
      exact calculateSingleBucketRate_pos log10 goalRatio v
        (hfin (k, v) (List.mem_singleton.mpr rfl))
  · rw [calculateSampleRates.eq_def, if_neg hlen]
    have hlen2 : ((sortedKeys buckets).length : Int) ≤ (buckets.length : Int) := by
      have : (sortedKeys buckets).length = (buckets.map Prod.fst).length :=
        (List.perm_insertionSort (· ≤ ·) (buckets.map Prod.fst)).length_eq
      rw [this, List.length_map]
    obtain ⟨hmap, hpos⟩ := rateLoop_spec log10 goalRatio buckets hfin
      (sortedKeys buckets) (buckets.length : Int) (.fin 0) hlen2 extraOk_zero
    refine ⟨?_, hpos⟩
    rw [hmap]
    exact List.perm_insertionSort (· ≤ ·) (buckets.map Prod.fst)

/-- Witness for C1: a concrete two-key bucket map with a finite goal ratio. -/
theorem calculateSampleRates_keys_rates_witness :
    (([("api", GoFloat.fin 40), ("web", GoFloat.fin 3)] : List (String × GoFloat)) ≠ []
      ∧ ∀ p ∈ ([("api", GoFloat.fin 40), ("web", GoFloat.fin 3)] : List (String × GoFloat)),
          (Prod.snd p).isFinite = true)
    ∧ (((calculateSampleRates (fun _ => GoFloat.fin 1) (GoFloat.fin 2)
          [("api", GoFloat.fin 40), ("web", GoFloat.fin 3)]).map Prod.fst).Perm
        ([("api", GoFloat.fin 40), ("web", GoFloat.fin 3)].map Prod.fst)
      ∧ ∀ p ∈ calculateSampleRates (fun _ => GoFloat.fin 1) (GoFloat.fin 2)
          [("api", GoFloat.fin 40), ("web", GoFloat.fin 3)], 1 ≤ p.2) :=
  ⟨⟨by decide, by decide⟩,
    calculateSampleRates_keys_rates (fun _ => GoFloat.fin 1) (GoFloat.fin 2)
      [("api", GoFloat.fin 40), ("web", GoFloat.fin 3)] (by decide) (by decide)⟩

/-- C2: the optimized rate calculator with the single-bucket bypass agrees
with the original calculator that always sorts and redistributes, for every
goal ratio and every bucket map. -/
theorem calculateSampleRates_eq_original (log10 : GoFloat → GoFloat)
    (goalRatio : GoFloat) (buckets : List (String × GoFloat)) :
    calculateSampleRates log10 goalRatio buckets =
      calculateSampleRates_original log10 goalRatio buckets := by
  rw [calculateSampleRates.eq_def, calculateSampleRates_original]
  by_cases hlen : buckets.length = 1
  · match buckets, hlen with
    | [(k, v)], _ =>
      have hsort : sortedKeys [(k, v)] = [k] := rfl
      have hlook : ([(k, v)] : List (String × GoFloat)).lookup k = some v := by
        simp [List.lookup_cons]
      rw [if_pos (by simp : ([(k, v)] : List (String × GoFloat)).length = 1)]
      rw [hsort, rateLoop, rateLoop, hlook]
      simp only [Option.getD_some, List.length_cons, List.length_nil]
      rw [singleBucket_eq_body]
      norm_num
  · rw [if_neg hlen]

/-!
## Block list (`blocklist.go`)

A `Blk` models one `Block` of the linked list; the permanent sentinel head
(whose `index` is `math.MaxInt64` and whose map stays empty) is left implicit
and the list state is the chain of blocks hanging off the sentinel, newest
first. Indexes are `int64` values modelled as `Int` (no arithmetic in the
walk can overflow).
-/

/-- One block of the list: its index and its key-frequency map. -/
structure Blk where
  index : Int
  keyToCount : List (String × Int)
deriving DecidableEq, Repr

/-- `aggregateCounts[k] += v` on a Go map modelled as an association list. -/
def mapAdd (m : List (String × Int)) (k : String) (v : Int) : List (String × Int) :=
  if (m.lookup k).isSome then
    m.map (fun p => if p.1 = k then (p.1, p.2 + v) else p)
  else m ++ [(k, v)]

/-- Summing one block's map into the aggregate, entry by entry. -/
def mapAddAll (m : List (String × Int)) (entries : List (String × Int)) :
    List (String × Int) :=
  entries.foldl (fun acc p => mapAdd acc p.1 p.2) m

/-- The walk inside `UnboundedBlockList.doAggregation`, with `front` standing
at the predecessor of the given chain (initially the sentinel): a block whose
`index ≤ startIndex` is summed into the aggregate, and as soon as the next
block's `index ≤ finishIndex` the chain is cut there (`front.next = nil`)
and the walk stops. Returns the aggregate and the retained chain. -/
def walkBlocks (startIndex finishIndex : Int) (acc : List (String × Int)) :
    List Blk → List (String × Int) × List Blk
  | [] => (acc, [])
  | b :: rest =>
    if b.index ≤ finishIndex then (acc, [])
    else
      let acc1 := if b.index ≤ startIndex then mapAddAll acc b.keyToCount else acc
      let res := walkBlocks startIndex finishIndex acc1 rest
      (res.1, b :: res.2)

/-- `UnboundedBlockList.doAggregation`: aggregates every block between
`currentIndex - 1` and the finish index and drops the expired tail. The
sentinel contributes nothing (its map is empty and its index,
`math.MaxInt64`, exceeds any reachable `startIndex`). -/
def doAggregation (blocks : List Blk) (currentIndex lookbackIndex : Int) :
    List (String × Int) × List Blk :=
  let startIndex := currentIndex - 1
  let finishIndex := startIndex - lookbackIndex
  walkBlocks startIndex finishIndex [] blocks

/-- `UnboundedBlockList.doIncrement`: bump the key in the newest block when
its index matches, otherwise push a fresh block carrying just this key. -/
def doIncrement (blocks : List Blk) (key : String) (keyIndex : Int) : List Blk :=
  match blocks with
  | b :: rest =>
    if b.index = keyIndex then
      { b with keyToCount := mapAdd b.keyToCount key 1 } :: rest
    else
      Blk.mk keyIndex (mapAdd [] key 1) :: b :: rest
  | [] => [Blk.mk keyIndex (mapAdd [] key 1)]

theorem walkBlocks_retained_gt (startIndex finishIndex : Int) :
    ∀ (blocks : List Blk) (acc : List (String × Int)) (b : Blk),
      b ∈ (walkBlocks startIndex finishIndex acc blocks).2 → finishIndex < b.index := by
  intro blocks
  induction blocks with
  | nil =>
    intro acc b hb
    simp [walkBlocks] at hb
  | cons hd rest ih =>
    intro acc b hb
    rw [walkBlocks] at hb
    by_cases hcut : hd.index ≤ finishIndex
    · rw [if_pos hcut] at hb
      simp at hb
    · rw [if_neg hcut] at hb
      simp only [List.mem_cons] at hb
      rcases hb with h | h
      · rw [h]
        exact lt_of_not_le hcut
      · exact ih _ b h

/-- C3, counterexample: with `current = 2` and `lookback = 1` the finish index
is `0`, and a block whose index is exactly `0` is *not* retained by this very
aggregation — the cut `front.next.index <= finishIndex` already drops it. -/
theorem blockAtFinish_dropped_counterexample :
    (Blk.mk 0 [("k", 1)]) ∈ [Blk.mk 0 [("k", 1)]]
    ∧ (Blk.mk 0 [("k", 1)]).index = 2 - 1 - 1
    ∧ (Blk.mk 0 [("k", 1)]) ∉ (doAggregation [Blk.mk 0 [("k", 1)]] 2 1).2 := by
  refine ⟨List.mem_singleton.mpr rfl, rfl, ?_⟩
  have : (doAggregation [Blk.mk 0 [("k", 1)]] 2 1).2 = [] := rfl
  rw [this]
  exact List.not_mem_nil _

/-- C3, amended: every block retained by `doAggregation` has an index
strictly greater than the finish index; hence a block whose index is less
than or equal to the finish index — in particular exactly equal to it — is
dropped by this aggregation. -/
theorem doAggregation_drops_block_at_finish (blocks : List Blk)
    (currentIndex lookbackIndex : Int) (b : Blk)
    (hb : b.index ≤ currentIndex - 1 - lookbackIndex) :
    b ∉ (doAggregation blocks currentIndex lookbackIndex).2 := by
  intro hmem
  exact absurd hb (not_le.mpr (walkBlocks_retained_gt _ _ blocks [] b hmem))

/-- Witness for the amended C3 at the concrete counterexample input. -/
theorem doAggregation_drops_block_at_finish_witness :
    (Blk.mk 0 [("k", 1)]).index ≤ 2 - 1 - 1
    ∧ (Blk.mk 0 [("k", 1)]) ∉ (doAggregation [Blk.mk 0 [("k", 1)]] 2 1).2 :=
  ⟨by decide,
    doAggregation_drops_block_at_finish [Blk.mk 0 [("k", 1)]] 2 1
      (Blk.mk 0 [("k", 1)]) (by decide)⟩

/-- `BoundedBlockList`: the unbounded chain plus the key-to-indexes map used
to enforce the `maxKeys` cap. -/
structure BoundedState where
  maxKeys : Int
  keyToIndexes : List (String × List Int)
  base : List Blk
deriving DecidableEq, Repr

/-- `m[k] = v` on a Go map modelled as an association list. -/
def mapSet (m : List (String × List Int)) (k : String) (v : List Int) :
    List (String × List Int) :=
  if (m.lookup k).isSome then
    m.map (fun p => if p.1 = k then (p.1, v) else p)
  else m ++ [(k, v)]

/-- `BoundedBlockList.tryInsert`: reject when the map already holds
`maxKeys` entries, otherwise record `keyIndex` in front of the key's index
list (unless it is already the newest recorded index). Returns the decision
and the updated map state. -/
def tryInsert (s : BoundedState) (key : String) (keyIndex : Int) :
    Bool × BoundedState :=
  -- Reject new keys at max capacity.
  if s.maxKeys ≤ (s.keyToIndexes.length : Int) then (false, s)
  else
    match s.keyToIndexes.lookup key with
    | some indexes =>
      if indexes.head? = some keyIndex then (true, s)
      else (true, { s with keyToIndexes := mapSet s.keyToIndexes key (keyIndex :: indexes) })
    | none => (true, { s with keyToIndexes := s.keyToIndexes ++ [(key, [keyIndex])] })

/-- `BoundedBlockList.IncrementKey`: consult `tryInsert`; on rejection return
the `MaxSizeError` (modelled as `some key`) without touching the underlying
list, otherwise delegate to the unbounded increment. -/
def boundedIncrementKey (s : BoundedState) (key : String) (keyIndex : Int) :
    BoundedState × Option String :=
  let r := tryInsert s key keyIndex
  if r.1 then ({ r.2 with base := doIncrement r.2.base key keyIndex }, none)
  else (r.2, some key)

/-- C4, counterexample: with `maxKeys = 1` and the key `"a"` already present
in `keyToIndexes`, `IncrementKey` still returns the capacity-exceeded error,
because the capacity check runs before the key-existence check. -/
theorem boundedIncrementKey_existing_key_counterexample :
    (([("a", [0])] : List (String × List Int)).lookup "a").isSome = true
    ∧ (boundedIncrementKey (BoundedState.mk 1 [("a", [0])] [Blk.mk 0 [("a", 1)]])
        "a" 1).2 = some "a" := by
  constructor
  · decide
  · rfl

/-- C4, amended: `IncrementKey` returns `MaxSizeError` exactly when
`keyToIndexes` already holds at least `maxKeys` entries — whether or not the
key is already present — and in that case the whole state, in particular the
underlying unbounded list, is left unchanged. -/
theorem boundedIncrementKey_capacity (s : BoundedState) (key : String)
    (keyIndex : Int) :
    ((boundedIncrementKey s key keyIndex).2.isSome = true
        ↔ s.maxKeys ≤ (s.keyToIndexes.length : Int))
    ∧ (s.maxKeys ≤ (s.keyToIndexes.length : Int) →
        boundedIncrementKey s key keyIndex = (s, some key)) := by
  by_cases hcap : s.maxKeys ≤ (s.keyToIndexes.length : Int)
  · have hstep : boundedIncrementKey s key keyIndex = (s, some key) := by
      simp [boundedIncrementKey, tryInsert, if_pos hcap]
    rw [hstep]
    exact ⟨by simpa using hcap, fun _ => rfl⟩
  · have hnone : (boundedIncrementKey s key keyIndex).2 = none := by
      rw [boundedIncrementKey, tryInsert, if_neg hcap]
      cases hlook : s.keyToIndexes.lookup key with
      | none => rfl
      | some indexes =>
        by_cases hhead : indexes.head? = some keyIndex
        · simp [hhead]
        · simp [hhead]
    refine ⟨?_, fun h => absurd h hcap⟩
    rw [hnone]
    simp [hcap]

/-- Witness for the amended C4 at the concrete counterexample state. -/
theorem boundedIncrementKey_capacity_witness :
    (1 : Int) ≤ (([("a", [0])] : List (String × List Int)).length : Int)
    ∧ boundedIncrementKey (BoundedState.mk 1 [("a", [0])] [Blk.mk 0 [("a", 1)]]) "a" 1
        = (BoundedState.mk 1 [("a", [0])] [Blk.mk 0 [("a", 1)]], some "a") :=
  ⟨by decide,
    (boundedIncrementKey_capacity (BoundedState.mk 1 [("a", [0])] [Blk.mk 0 [("a", 1)]])
      "a" 1).2 (by decide)⟩

/-!
## Association-list helpers shared by the sampler embeddings
-/

theorem lookup_mem {β : Type} {l : List (String × β)} {k : String} {v : β}
    (h : l.lookup k = some v) : (k, v) ∈ l := by
  induction l with
  | nil => simp [List.lookup] at h
  | cons p rest ih =>
    obtain ⟨k1, v1⟩ := p
    rw [List.lookup_cons] at h
    cases hk : k == k1
    · rw [hk] at h
      exact List.mem_cons_of_mem _ (ih h)
    · rw [hk] at h
      obtain rfl : v1 = v := by simpa using h
      obtain rfl : k = k1 := eq_of_beq hk
      exact List.mem_cons_self _ _

theorem mem_lookup_of_nodup {β : Type} {l : List (String × β)} {k : String} {v : β}
    (hnd : (l.map Prod.fst).Nodup) (hm : (k, v) ∈ l) : l.lookup k = some v := by
  induction l with
  | nil => simp at hm
  | cons p rest ih =>
    obtain ⟨k1, v1⟩ := p
    rw [List.map_cons, List.nodup_cons] at hnd
    rw [List.lookup_cons]
    rcases List.mem_cons.mp hm with h | h
    · obtain ⟨rfl, rfl⟩ := Prod.mk.injEq .. ▸ h
      simp
    · cases hk : k == k1
      · exact ih hnd.2 h
      · obtain rfl : k = k1 := eq_of_beq hk
        exact absurd (List.mem_map_of_mem Prod.fst h) hnd.1

theorem lookup_append {β : Type} (l1 l2 : List (String × β)) (k : String) :
    (l1 ++ l2).lookup k =
      match l1.lookup k with
      | some v => some v
      | none => l2.lookup k := by
  induction l1 with
  | nil => simp [List.lookup]
  | cons p rest ih =>
    obtain ⟨k1, v1⟩ := p
    rw [List.cons_append, List.lookup_cons, List.lookup_cons]
    cases hk : k == k1
    · simpa using ih
    · rfl

/-!
## AvgSampleRate (`avgsamplerate.go`) and EMAThroughput (the source file for
the EMA throughput sampler)

Only the fields that the modelled methods read or write appear in the state
records; the mutex, channels and background goroutine are concurrency plumbing
outside the shallow embedding (each method already runs atomically here).
Durations are in nanoseconds. A Go `nil` map that the code distinguishes from
an empty one is an `Option`.
-/

/-- `m[k] += v` on a Go `map[string]float64`. -/
def qMapAdd (m : List (String × ℚ)) (k : String) (v : ℚ) : List (String × ℚ) :=
  if (m.lookup k).isSome then
    m.map (fun p => if p.1 = k then (p.1, p.2 + v) else p)
  else m ++ [(k, v)]

/-- State of an `AvgSampleRate` sampler. -/
structure AvgSampleRateState where
  goalSampleRate : Int
  maxKeys : Int
  savedSampleRates : Option (List (String × Int))
  currentCounts : List (String × ℚ)
  haveData : Bool
deriving DecidableEq, Repr

namespace AvgSampleRate

/-- `AvgSampleRate.GetSampleRateMulti`. -/
def getSampleRateMulti (a : AvgSampleRateState) (key : String) (count : Int) :
    Int × AvgSampleRateState :=
  -- Enforce MaxKeys limit on the size of the map
  let a1 :=
    if 0 < a.maxKeys then
      if (a.currentCounts.lookup key).isSome
          ∨ (a.currentCounts.length : Int) < a.maxKeys then
        { a with currentCounts := qMapAdd a.currentCounts key (count : ℚ) }
      else a
    else { a with currentCounts := qMapAdd a.currentCounts key (count : ℚ) }
  if a1.haveData = false then (a1.goalSampleRate, a1)
  else (((a1.savedSampleRates.getD []).lookup key).getD 1, a1)

/-- `AvgSampleRate.GetSampleRate` delegates to `GetSampleRateMulti` with 1. -/
def getSampleRate (a : AvgSampleRateState) (key : String) : Int × AvgSampleRateState :=
  getSampleRateMulti a key 1

end AvgSampleRate

/-- State of an `EMAThroughput` sampler. The non-blocking send on the burst
channel is modelled by the `burstSignalPending` flag. -/
structure EMAThroughputState where
  weight : ℚ
  initialSampleRate : Int
  goalThroughputPerSec : Int
  maxKeys : Int
  ageOutValue : ℚ
  burstMultiple : ℚ
  burstDetectionDelay : Nat
  savedSampleRates : Option (List (String × Int))
  currentCounts : List (String × ℚ)
  movingAverage : Option (List (String × ℚ))
  burstThreshold : ℚ
  currentBurstSum : ℚ
  intervalCount : Nat
  burstSignalPending : Bool
  haveData : Bool
  updating : Bool
  requestCount : Int
  eventCount : Int
  burstCount : Int
deriving DecidableEq, Repr

namespace EMAThroughput

/-- `EMAThroughput.GetSampleRateMulti`. -/
def getSampleRateMulti (e : EMAThroughputState) (key : String) (count : Int) :
    Int × EMAThroughputState :=
  let e1 := { e with requestCount := e.requestCount + 1,
                     eventCount := e.eventCount + count }
  -- Enforce MaxKeys limit on the size of the map
  let e2 :=
    if 0 < e1.maxKeys then
      if (e1.currentCounts.lookup key).isSome
          ∨ (e1.currentCounts.length : Int) < e1.maxKeys then
        { e1 with currentCounts := qMapAdd e1.currentCounts key (count : ℚ),
                  currentBurstSum := e1.currentBurstSum + (count : ℚ) }
      else e1
    else { e1 with currentCounts := qMapAdd e1.currentCounts key (count : ℚ),
                   currentBurstSum := e1.currentBurstSum + (count : ℚ) }
  -- Enforce the burst threshold
  let e3 :=
    if 0 < e2.burstThreshold ∧ e2.burstThreshold ≤ e2.currentBurstSum
        ∧ e2.burstDetectionDelay ≤ e2.intervalCount then
      { e2 with currentBurstSum := 0, burstCount := e2.burstCount + 1,
                burstSignalPending := true }
    else e2
  if e3.haveData = false then (e3.initialSampleRate, e3)
  else (((e3.savedSampleRates.getD []).lookup key).getD 1, e3)

/-- `EMAThroughput.GetSampleRate` delegates to `GetSampleRateMulti` with 1. -/
def getSampleRate (e : EMAThroughputState) (key : String) : Int × EMAThroughputState :=
  getSampleRateMulti e key 1

end EMAThroughput

/-- C5: before the first recompute has completed (`haveData` still false) and
with no state loaded, `AvgSampleRate.GetSampleRate` / `GetSampleRateMulti`
return `GoalSampleRate` for every key, and `EMAThroughput.GetSampleRate` /
`GetSampleRateMulti` return `InitialSampleRate` for every key. -/
theorem cold_start_returns_configured_rates (a : AvgSampleRateState)
    (e : EMAThroughputState) (key : String) (count : Int)
    (ha : a.haveData = false) (he : e.haveData = false) :
    (AvgSampleRate.getSampleRateMulti a key count).1 = a.goalSampleRate
    ∧ (AvgSampleRate.getSampleRate a key).1 = a.goalSampleRate
    ∧ (EMAThroughput.getSampleRateMulti e key count).1 = e.initialSampleRate
    ∧ (EMAThroughput.getSampleRate e key).1 = e.initialSampleRate := by
  refine ⟨?_, ?_, ?_, ?_⟩ <;>
    · first
      | (rw [AvgSampleRate.getSampleRate]; rw [AvgSampleRate.getSampleRateMulti])
      | (rw [EMAThroughput.getSampleRate]; rw [EMAThroughput.getSampleRateMulti])
      | rw [AvgSampleRate.getSampleRateMulti]
      | rw [EMAThroughput.getSampleRateMulti]
      split_ifs <;> simp [ha, he]

/-- Witness for C5 at concrete cold-start sampler states. -/
theorem cold_start_returns_configured_rates_witness :
    ((AvgSampleRateState.mk 10 0 none [] false).haveData = false
      ∧ (EMAThroughputState.mk (1/2) 12 100 0 (1/2) 2 3 none [] none 0 0 0 false
          false false 0 0 0).haveData = false)
    ∧ (AvgSampleRate.getSampleRateMulti (AvgSampleRateState.mk 10 0 none [] false)
        "route" 3).1 = (AvgSampleRateState.mk 10 0 none [] false).goalSampleRate
    ∧ (AvgSampleRate.getSampleRate (AvgSampleRateState.mk 10 0 none [] false)
        "route").1 = (AvgSampleRateState.mk 10 0 none [] false).goalSampleRate
    ∧ (EMAThroughput.getSampleRateMulti (EMAThroughputState.mk (1/2) 12 100 0 (1/2) 2 3
        none [] none 0 0 0 false false false 0 0 0) "route" 3).1
        = (EMAThroughputState.mk (1/2) 12 100 0 (1/2) 2 3 none [] none 0 0 0 false
            false false 0 0 0).initialSampleRate
    ∧ (EMAThroughput.getSampleRate (EMAThroughputState.mk (1/2) 12 100 0 (1/2) 2 3
        none [] none 0 0 0 false false false 0 0 0) "route").1
        = (EMAThroughputState.mk (1/2) 12 100 0 (1/2) 2 3 none [] none 0 0 0 false
            false false 0 0 0).initialSampleRate :=
  ⟨⟨rfl, rfl⟩,
    cold_start_returns_configured_rates (AvgSampleRateState.mk 10 0 none [] false)
      (EMAThroughputState.mk (1/2) 12 100 0 (1/2) 2 3 none [] none 0 0 0 false
        false false 0 0 0) "route" 3 rfl rfl⟩

/-!
## EMASampleRate (`emasamplerate.go`)
-/

/-- `adjustAverage` from `emasamplerate.go`: the standard EMA update. -/
def adjustAverage (oldAvg value alpha : ℚ) : ℚ :=
  value * alpha + (1 - alpha) * oldAvg

/-- `EMASampleRate.updateEMA` (the identical method also appears on
`EMAThroughput`). The first loop walks every key already in `movingAverage`,
decays or updates it, drops it when the new average falls below
`AgeOutValue`, and deletes it from `newCounts`; the second loop inserts the
surviving brand-new keys when their first average reaches `AgeOutValue`. -/
def updateEMA (weight ageOutValue : ℚ)
    (movingAverage newCounts : List (String × ℚ)) : List (String × ℚ) :=
  let updated := movingAverage.filterMap (fun p =>
    -- seen this interval? adjust by that amount; otherwise adjust by zero
    let newAvg := adjustAverage p.2 ((newCounts.lookup p.1).getD 0) weight
    if newAvg < ageOutValue then none else some (p.1, newAvg))
  -- keys processed by the first loop were deleted from newCounts
  let fresh := (newCounts.filter (fun p => (movingAverage.lookup p.1).isNone)).filterMap
    (fun p =>
      let newAvg := adjustAverage 0 p.2 weight
      if ageOutValue ≤ newAvg then some (p.1, newAvg) else none)
  updated ++ fresh

/-- C6: after `updateEMA` every value kept in `movingAverage` is at least
`AgeOutValue`, and a key absent from the interval's counts whose decayed
average `(1 - Weight) * old` falls below `AgeOutValue` is deleted. -/
theorem updateEMA_ages_out (weight ageOutValue : ℚ)
    (ma counts : List (String × ℚ)) (hnd : (ma.map Prod.fst).Nodup) :
    (∀ p ∈ updateEMA weight ageOutValue ma counts, ageOutValue ≤ p.2)
    ∧ ∀ (key : String) (old : ℚ), ma.lookup key = some old →
        counts.lookup key = none → (1 - weight) * old < ageOutValue →
        (updateEMA weight ageOutValue ma counts).lookup key = none := by
  constructor
  · intro p hp
    rw [updateEMA] at hp
    rcases List.mem_append.mp hp with h | h
    · obtain ⟨q, _, hq⟩ := List.mem_filterMap.mp h
      by_cases hlt : adjustAverage q.2 ((counts.lookup q.1).getD 0) weight < ageOutValue
      · rw [if_pos hlt] at hq
        exact absurd hq (by simp)
      · rw [if_neg hlt] at hq
        obtain rfl := Option.some.injEq .. ▸ hq
        simpa using not_lt.mp hlt
    · obtain ⟨q, _, hq⟩ := List.mem_filterMap.mp h
      by_cases hge : ageOutValue ≤ adjustAverage 0 q.2 weight
      · rw [if_pos hge] at hq
        obtain rfl := Option.some.injEq .. ▸ hq
        simpa using hge
      · rw [if_neg hge] at hq
        exact absurd hq (by simp)
  · intro key old hold hcnt hdecay
    rw [updateEMA, lookup_append]
    have hupd : (ma.filterMap (fun p =>
        let newAvg := adjustAverage p.2 ((counts.lookup p.1).getD 0) weight
        if newAvg < ageOutValue then none else some (p.1, newAvg))).lookup key
          = none := by
      cases hlk : (ma.filterMap (fun p =>
          let newAvg := adjustAverage p.2 ((counts.lookup p.1).getD 0) weight
          if newAvg < ageOutValue then none else some (p.1, newAvg))).lookup key with
      | none => rfl
      | some v =>
        obtain ⟨q, hqma, hq⟩ := List.mem_filterMap.mp (lookup_mem hlk)
        by_cases hlt : adjustAverage q.2 ((counts.lookup q.1).getD 0) weight < ageOutValue
        · rw [if_pos hlt] at hq
          exact absurd hq (by simp)
        · rw [if_neg hlt] at hq
          have hq1 : q.1 = key := by simpa using congrArg (Option.map Prod.fst) hq
          have hq2 : q.2 = old := by
            have := mem_lookup_of_nodup hnd (hq1 ▸ (Prod.mk.eta (p := q) ▸ hqma))
            rw [hold] at this
            simpa using this.symm
          rw [hq1, hq2, hcnt] at hlt
          simp only [Option.getD_none, adjustAverage, zero_mul, zero_add] at hlt
          exact absurd hdecay hlt
    rw [hupd]
    cases hlk2 : ((counts.filter
        (fun p => (ma.lookup p.1).isNone)).filterMap (fun p =>
          let newAvg := adjustAverage 0 p.2 weight
          if ageOutValue ≤ newAvg then some (p.1, newAvg) else none)).lookup key with
    | none => rfl
    | some v =>
      obtain ⟨q, hqmem, hq⟩ := List.mem_filterMap.mp (lookup_mem hlk2)
      obtain ⟨_, hqnone⟩ := List.mem_filter.mp hqmem
      by_cases hge : ageOutValue ≤ adjustAverage 0 q.2 weight
      · rw [if_pos hge] at hq
        have hq1 : q.1 = key := by simpa using congrArg (Option.map Prod.fst) hq
        rw [hq1] at hqnone
        rw [hold] at hqnone
        simp at hqnone
      · rw [if_neg hge] at hq
        exact absurd hq (by simp)

/-- State of an `EMASampleRate` sampler. The field `pfx` models the source
field `prefix`; the non-blocking burst send is the `burstSignalPending` flag. -/
structure EMASampleRateState where
  weight : ℚ
  goalSampleRate : Int
  maxKeys : Int
  ageOutValue : ℚ
  burstMultiple : ℚ
  burstDetectionDelay : Nat
  savedSampleRates : Option (List (String × Int))
  currentCounts : List (String × ℚ)
  movingAverage : Option (List (String × ℚ))
  burstThreshold : ℚ
  currentBurstSum : ℚ
  intervalCount : Nat
  burstSignalPending : Bool
  haveData : Bool
  updating : Bool
  requestCount : Int
  eventCount : Int
  burstCount : Int
  pfx : String
  requestCountKey : String
  eventCountKey : String
  keyspaceSizeKey : String
  burstCountKey : String
  intervalCountKey : String
deriving DecidableEq, Repr

/-- The JSON payload `emaSampleRateState` written by `SaveState` and read by
`LoadState`. `encoding/json` round-trips `map[string]int` and
`map[string]float64` values exactly, so the byte-level encoding is modelled
by the payload record itself. -/
structure EmaSampleRateJson where
  savedSampleRates : List (String × Int)
  movingAverage : List (String × ℚ)
deriving DecidableEq, Repr

namespace EMASampleRate

/-- `EMASampleRate.GetSampleRateMulti`. -/
def getSampleRateMulti (e : EMASampleRateState) (key : String) (count : Int) :
    Int × EMASampleRateState :=
  let e1 := { e with requestCount := e.requestCount + 1,
                     eventCount := e.eventCount + count }
  -- Enforce MaxKeys limit on the size of the map
  let e2 :=
    if 0 < e1.maxKeys then
      if (e1.currentCounts.lookup key).isSome
          ∨ (e1.currentCounts.length : Int) < e1.maxKeys then
        { e1 with currentCounts := qMapAdd e1.currentCounts key (count : ℚ),
                  currentBurstSum := e1.currentBurstSum + (count : ℚ) }
      else e1
    else { e1 with currentCounts := qMapAdd e1.currentCounts key (count : ℚ),
                   currentBurstSum := e1.currentBurstSum + (count : ℚ) }
  -- Enforce the burst threshold
  let e3 :=
    if 0 < e2.burstThreshold ∧ e2.burstThreshold ≤ e2.currentBurstSum
        ∧ e2.burstDetectionDelay ≤ e2.intervalCount then
      { e2 with currentBurstSum := 0, burstCount := e2.burstCount + 1,
                burstSignalPending := true }
    else e2
  if e3.haveData = false then (e3.goalSampleRate, e3)
  else (((e3.savedSampleRates.getD []).lookup key).getD 1, e3)

/-- `EMASampleRate.GetSampleRate` delegates to `GetSampleRateMulti` with 1. -/
def getSampleRate (e : EMASampleRateState) (key : String) :
    Int × EMASampleRateState :=
  getSampleRateMulti e key 1

/-- `EMASampleRate.SaveState`: errors on a nil map, otherwise serializes both
maps. -/
def saveState (e : EMASampleRateState) : Except String EmaSampleRateJson :=
  match e.savedSampleRates with
  | none => .error "saved sample rate map is nil"
  | some ssr =>
    match e.movingAverage with
    | none => .error "moving average map is nil"
    | some ma => .ok (EmaSampleRateJson.mk ssr ma)

/-- `EMASampleRate.LoadState` on a successfully parsed payload. -/
def loadState (e : EMASampleRateState) (s : EmaSampleRateJson) : EMASampleRateState :=
  { e with savedSampleRates := some s.savedSampleRates,
           movingAverage := some s.movingAverage,
           haveData := true }

end EMASampleRate

/-- The JSON payload `avgSampleRateState` of `AvgSampleRate.SaveState`. -/
structure AvgSampleRateJson where
  savedSampleRates : List (String × Int)
deriving DecidableEq, Repr

namespace AvgSampleRate

/-- `AvgSampleRate.SaveState`. -/
def saveState (a : AvgSampleRateState) : Except String AvgSampleRateJson :=
  match a.savedSampleRates with
  | none => .error "saved sample rate map is nil"
  | some ssr => .ok (AvgSampleRateJson.mk ssr)

/-- `AvgSampleRate.LoadState` on a successfully parsed payload. -/
def loadState (a : AvgSampleRateState) (s : AvgSampleRateJson) : AvgSampleRateState :=
  { a with savedSampleRates := some s.savedSampleRates, haveData := true }

end AvgSampleRate

/-- A freshly started `EMASampleRate` with default configuration: both maps
are allocated (non-nil) and empty, and no recompute has run yet. -/
def emaColdState : EMASampleRateState :=
  EMASampleRateState.mk (1/2) 10 0 (1/2) 2 3 (some []) [] (some []) 0 0 0 false
    false false 0 0 0 "" "" "" "" "" ""

/-- C7, counterexample: on a freshly started `EMASampleRate` (non-nil empty
maps, `haveData = false`), the save/load round-trip changes the returned
rates: the original answers `GoalSampleRate = 10`, the loaded sampler
answers 1, because `LoadState` sets `haveData`. -/
theorem emaSampleRate_roundtrip_counterexample :
    EMASampleRate.saveState emaColdState = .ok (EmaSampleRateJson.mk [] [])
    ∧ (EMASampleRate.getSampleRateMulti emaColdState "k" 1).1 = 10
    ∧ (EMASampleRate.getSampleRateMulti
        (EMASampleRate.loadState emaColdState (EmaSampleRateJson.mk [] [])) "k" 1).1 = 1 :=
  ⟨rfl, rfl, rfl⟩

/-- The returned rate of `EMASampleRate.GetSampleRateMulti` depends only on
`haveData` and `savedSampleRates`; the count bookkeeping and burst check
never touch those fields. -/
theorem emaGetSampleRateMulti_fst (e : EMASampleRateState)
    (key : String) (count : Int) :
    (EMASampleRate.getSampleRateMulti e key count).1 =
      if e.haveData = false then e.goalSampleRate
      else ((e.savedSampleRates.getD []).lookup key).getD 1 := by
  rw [EMASampleRate.getSampleRateMulti]
  split_ifs <;> rfl

/-- The returned rate of `AvgSampleRate.GetSampleRateMulti` depends only on
`haveData` and `savedSampleRates`. -/
theorem avgGetSampleRateMulti_fst (a : AvgSampleRateState)
    (key : String) (count : Int) :
    (AvgSampleRate.getSampleRateMulti a key count).1 =
      if a.haveData = false then a.goalSampleRate
      else ((a.savedSampleRates.getD []).lookup key).getD 1 := by
  rw [AvgSampleRate.getSampleRateMulti]
  split_ifs <;> rfl

/-- C7, amended: for a sampler that has data (`haveData = true`) and non-nil
maps, `SaveState` succeeds with both maps, and loading that payload into any
sampler yields one that returns the same rate for every key and count, with
`movingAverage` preserved exactly; the same holds for `AvgSampleRate`. -/
theorem saveState_loadState_roundtrip (e f : EMASampleRateState)
    (a b : AvgSampleRateState) (ssr : List (String × Int))
    (ma : List (String × ℚ)) (assr : List (String × Int))
    (hs : e.savedSampleRates = some ssr) (hm : e.movingAverage = some ma)
    (hd : e.haveData = true) (has : a.savedSampleRates = some assr)
    (had : a.haveData = true) :
    EMASampleRate.saveState e = .ok (EmaSampleRateJson.mk ssr ma)
    ∧ (∀ (key : String) (count : Int),
        (EMASampleRate.getSampleRateMulti
          (EMASampleRate.loadState f (EmaSampleRateJson.mk ssr ma)) key count).1
        = (EMASampleRate.getSampleRateMulti e key count).1)
    ∧ (EMASampleRate.loadState f (EmaSampleRateJson.mk ssr ma)).movingAverage
        = e.movingAverage
    ∧ AvgSampleRate.saveState a = .ok (AvgSampleRateJson.mk assr)
    ∧ ∀ (key : String) (count : Int),
        (AvgSampleRate.getSampleRateMulti
          (AvgSampleRate.loadState b (AvgSampleRateJson.mk assr)) key count).1
        = (AvgSampleRate.getSampleRateMulti a key count).1 := by
  refine ⟨?_, ?_, ?_, ?_, ?_⟩
  · rw [EMASampleRate.saveState, hs, hm]
  · intro key count
    rw [emaGetSampleRateMulti_fst, emaGetSampleRateMulti_fst]
    simp [EMASampleRate.loadState, hd, hs]
  · rw [EMASampleRate.loadState, hm]
  · rw [AvgSampleRate.saveState, has]
  · intro key count
    rw [avgGetSampleRateMulti_fst, avgGetSampleRateMulti_fst]
    simp [AvgSampleRate.loadState, had, has]

/-- A concrete `EMASampleRate` state that has data: rate 2 saved for "foo". -/
def emaDataState : EMASampleRateState :=
  EMASampleRateState.mk (1/2) 10 0 (1/2) 2 3 (some [("foo", 2)]) []
    (some [("foo", 500)]) 0 0 0 false true false 0 0 0 "" "" "" "" "" ""

/-- Witness for the amended C7 at concrete sampler states with data. -/
theorem saveState_loadState_roundtrip_witness :
    (emaDataState.savedSampleRates = some [("foo", 2)]
      ∧ emaDataState.movingAverage = some [("foo", 500)]
      ∧ emaDataState.haveData = true)
    ∧ (EMASampleRate.getSampleRateMulti
        (EMASampleRate.loadState emaColdState
          (EmaSampleRateJson.mk [("foo", 2)] [("foo", 500)])) "foo" 1).1
      = (EMASampleRate.getSampleRateMulti emaDataState "foo" 1).1
    ∧ (AvgSampleRate.getSampleRateMulti
        (AvgSampleRate.loadState (AvgSampleRateState.mk 10 0 none [] false)
          (AvgSampleRateJson.mk [("foo", 2)])) "foo" 1).1
      = (AvgSampleRate.getSampleRateMulti
          (AvgSampleRateState.mk 10 0 (some [("foo", 2)]) [] true) "foo" 1).1 := by
  refine ⟨⟨rfl, rfl, rfl⟩, ?_, ?_⟩
  · exact (saveState_loadState_roundtrip emaDataState emaColdState
      (AvgSampleRateState.mk 10 0 (some [("foo", 2)]) [] true)
      (AvgSampleRateState.mk 10 0 none [] false) [("foo", 2)] [("foo", 500)]
      [("foo", 2)] rfl rfl rfl rfl rfl).2.1 "foo" 1
  · exact (saveState_loadState_roundtrip emaDataState emaColdState
      (AvgSampleRateState.mk 10 0 (some [("foo", 2)]) [] true)
      (AvgSampleRateState.mk 10 0 none [] false) [("foo", 2)] [("foo", 500)]
      [("foo", 2)] rfl rfl rfl rfl rfl).2.2.2.2 "foo" 1

/-!
## Metrics (`GetMetrics`, from `dynsampler.go`, `emasamplerate.go` and
`windowedthroughput.go`)
-/

/-- Metric name suffixes from `dynsampler.go`. -/
def requestCountSuffix : String := "request_count"

def eventCountSuffix : String := "event_count"

def keyspaceSizeSuffix : String := "keyspace_size"

def burstCountSuffix : String := "burst_count"

def intervalCountSuffix : String := "interval_count"

/-- `EMASampleRate.GetMetrics`: on the first call with a prefix the key names
are memoized (the guard is `prefix == ""`); a later call with a different
prefix returns nil. Returns the metrics (or `none` for Go's nil map) and the
possibly-updated state. -/
def EMASampleRate.getMetrics (e : EMASampleRateState) (p : String) :
    Option (List (String × Int)) × EMASampleRateState :=
  let e1 :=
    if e.pfx = "" then
      { e with pfx := p,
               requestCountKey := p ++ requestCountSuffix,
               eventCountKey := p ++ eventCountSuffix,
               keyspaceSizeKey := p ++ keyspaceSizeSuffix,
               burstCountKey := p ++ burstCountSuffix,
               intervalCountKey := p ++ intervalCountSuffix }
    else e
  -- If the prefix is set but does not match with the current prefix, return nil
  if e1.pfx ≠ p then (none, e1)
  else
    (some [(e1.requestCountKey, e1.requestCount),
           (e1.eventCountKey, e1.eventCount),
           (e1.keyspaceSizeKey, (e1.currentCounts.length : Int)),
           (e1.burstCountKey, e1.burstCount),
           (e1.intervalCountKey, (e1.intervalCount : Int))], e1)

/-- The metrics fields of a `WindowedThroughput` sampler. -/
structure WindowedThroughputState where
  requestCount : Int
  eventCount : Int
  numKeys : Int
deriving DecidableEq, Repr

/-- `WindowedThroughput.GetMetrics`: no memoization at all — every call
builds the map under whatever prefix it is handed. -/
def WindowedThroughput.getMetrics (t : WindowedThroughputState) (p : String) :
    List (String × Int) :=
  [(p ++ "_request_count", t.requestCount),
   (p ++ "_event_count", t.eventCount),
   (p ++ "_keyspace_size", t.numKeys)]

/-- C8, counterexample: `WindowedThroughput.GetMetrics` never pins its
prefix — after a first call with prefix "a" returns a non-empty result, a
call with the different prefix "b" still returns a non-empty result (under
the new prefix) instead of an empty one. -/
theorem getMetrics_pinning_counterexample :
    WindowedThroughput.getMetrics (WindowedThroughputState.mk 5 7 2) "a" ≠ []
    ∧ WindowedThroughput.getMetrics (WindowedThroughputState.mk 5 7 2) "b" ≠ [] := by
  constructor <;> simp [WindowedThroughput.getMetrics]

/-- C8, amended: for the memoizing samplers (here `EMASampleRate`), once
`GetMetrics(p)` with a non-empty prefix `p` has returned a non-nil result,
any later `GetMetrics(q)` with `q ≠ p` returns nil and leaves the state —
in particular the memoized metric key names — unchanged. (The non-memoizing
`WindowedThroughput.GetMetrics`, and a first call with the empty prefix,
are outside the guarantee.) -/
theorem emaSampleRate_metrics_pinned (e : EMASampleRateState) (p q : String)
    (r : List (String × Int)) (e1 : EMASampleRateState)
    (hp : p ≠ "") (h1 : EMASampleRate.getMetrics e p = (some r, e1))
    (hq : q ≠ p) :
    EMASampleRate.getMetrics e1 q = (none, e1) := by
  have hpfx : e1.pfx = p := by
    rw [EMASampleRate.getMetrics] at h1
    by_cases hem : e.pfx = ""
    · rw [if_pos hem] at h1
      split_ifs at h1 with hne
      · exact absurd (congrArg Prod.fst h1) (by simp)
      · have := congrArg Prod.snd h1
        simp at this
        rw [← this]
    · rw [if_neg hem] at h1
      split_ifs at h1 with hne
      · exact absurd (congrArg Prod.fst h1) (by simp)
      · have := congrArg Prod.snd h1
        simp at this
        rw [← this]
        exact not_ne_iff.mp hne
  have hne : ¬ e1.pfx = "" := by rw [hpfx]; exact hp
  have hpq : e1.pfx ≠ q := by rw [hpfx]; exact fun h => hq h.symm
  rw [EMASampleRate.getMetrics, if_neg hne, if_pos hpq]

/-- The state after pinning the fresh `emaColdState` to the prefix "a". -/
def emaPinnedState : EMASampleRateState :=
  { emaColdState with
      pfx := "a",
      requestCountKey := "a" ++ requestCountSuffix,
      eventCountKey := "a" ++ eventCountSuffix,
      keyspaceSizeKey := "a" ++ keyspaceSizeSuffix,
      burstCountKey := "a" ++ burstCountSuffix,
      intervalCountKey := "a" ++ intervalCountSuffix }

/-- The metrics returned by the first `GetMetrics("a")` on `emaColdState`. -/
def emaPinnedMetrics : List (String × Int) :=
  [("a" ++ requestCountSuffix, 0), ("a" ++ eventCountSuffix, 0),
   ("a" ++ keyspaceSizeSuffix, 0), ("a" ++ burstCountSuffix, 0),
   ("a" ++ intervalCountSuffix, 0)]

/-- Witness for the amended C8: pin a fresh sampler to "a", then query "b". -/
theorem emaSampleRate_metrics_pinned_witness :
    (("a" : String) ≠ ""
      ∧ EMASampleRate.getMetrics emaColdState "a" = (some emaPinnedMetrics, emaPinnedState)
      ∧ ("b" : String) ≠ "a")
    ∧ EMASampleRate.getMetrics emaPinnedState "b" = (none, emaPinnedState) := by
  refine ⟨⟨by decide, ?_, by decide⟩, ?_⟩
  · rfl
  · exact emaSampleRate_metrics_pinned emaColdState "a" "b" emaPinnedMetrics
      emaPinnedState (by decide) rfl (by decide)

/-!
## OnlyOnce (`onlyonce.go`)

Durations are nanoseconds; `seen` is `Option` because a Go nil map and an
allocated empty map behave differently on writes (writing to a nil map
panics). The hot path can therefore fail, so it returns an `Except` whose
error is the Go panic message.
-/

def nanosPerSecond : Int := 1000000000

/-- State of an `OnlyOnce` sampler. -/
structure OnlyOnceState where
  clearFrequencySec : Int
  clearFrequencyDuration : Int
  seen : Option (List (String × Bool))
  requestCount : Int
  eventCount : Int
deriving DecidableEq, Repr

/-- `o.seen[key] = true` on an allocated map. -/
def seenSet (m : List (String × Bool)) (k : String) : List (String × Bool) :=
  if (m.lookup k).isSome then
    m.map (fun p => if p.1 = k then (p.1, true) else p)
  else m ++ [(k, true)]

namespace OnlyOnce

/-- `OnlyOnce.Start`: configuration validation and defaults. When the clear
frequency comes out negative, `Start` returns *before* the line that
allocates the `seen` map, leaving it nil on a fresh sampler, and spawns no
goroutine (the seen set would never be cleared). -/
def start (o : OnlyOnceState) : Except String OnlyOnceState :=
  if o.clearFrequencyDuration ≠ 0 ∧ o.clearFrequencySec ≠ 0 then
    .error "the ClearFrequencySec configuration value is deprecated; use only ClearFrequencyDuration"
  else
    let o1 :=
      if o.clearFrequencyDuration = 0 ∧ o.clearFrequencySec = 0 then
        { o with clearFrequencyDuration := 30 * nanosPerSecond }
      else if o.clearFrequencySec ≠ 0 then
        { o with clearFrequencyDuration := o.clearFrequencySec * nanosPerSecond }
      else o
    -- if it's negative, we don't even start something
    if o1.clearFrequencyDuration < 0 then .ok o1
    else .ok { o1 with seen := some [] }

/-- `OnlyOnce.GetSampleRateMulti`. Reading Go's nil map finds nothing, so on
a nil `seen` the unseen-key path is taken and the write `o.seen[key] = true`
panics ("assignment to entry in nil map"), modelled as the error case. -/
def getSampleRateMulti (o : OnlyOnceState) (key : String) (count : Int) :
    Except String (Int × OnlyOnceState) :=
  let o1 := { o with requestCount := o.requestCount + 1,
                     eventCount := o.eventCount + count }
  match o1.seen with
  | some seen =>
    if (seen.lookup key).isSome then .ok (1000000000, o1)
    else .ok (1, { o1 with seen := some (seenSet seen key) })
  | none => .error "assignment to entry in nil map"

/-- `OnlyOnce.GetSampleRate` delegates to `GetSampleRateMulti` with 1. -/
def getSampleRate (o : OnlyOnceState) (key : String) :
    Except String (Int × OnlyOnceState) :=
  getSampleRateMulti o key 1

end OnlyOnce

/-- C9: a fresh `OnlyOnce` configured with a negative clear frequency. `Start`
succeeds but returns before allocating the `seen` map, so the very first
`GetSampleRate` — which the claim says returns 1 — instead panics with
"assignment to entry in nil map". This contradicts the sampler's own
documentation ("Set ClearFrequencySec to a negative number to report each
key only once for the life of the process"). -/
theorem onlyOnce_negative_clear_frequency_panics :
    OnlyOnce.start (OnlyOnceState.mk (-1) 0 none 0 0)
      = .ok (OnlyOnceState.mk (-1) (-1 * nanosPerSecond) none 0 0)
    ∧ OnlyOnce.getSampleRate
        (OnlyOnceState.mk (-1) (-1 * nanosPerSecond) none 0 0) "stack"
      = .error "assignment to entry in nil map" :=
  ⟨rfl, rfl⟩

/-!
## AvgSampleWithMin (`avgsamplewithmin.go`)
-/

/-- State of an `AvgSampleWithMin` sampler (duration in nanoseconds). -/
structure AvgSampleWithMinState where
  clearFrequencyDuration : Int
  goalSampleRate : Int
  maxKeys : Int
  minEventsPerSec : Int
  savedSampleRates : List (String × Int)
  currentCounts : List (String × ℚ)
  haveData : Bool
  requestCount : Int
  eventCount : Int
deriving DecidableEq, Repr

namespace AvgSampleWithMin

/-- The sum over a snapshot of the per-key counts. -/
def sumCounts (l : List (String × ℚ)) : ℚ := (l.map Prod.snd).sum

/-- `AvgSampleWithMin.updateMaps`: snapshot and clear the counters; with no
traffic clear the rate map; below the `MinEventsPerSec` floor send every
snapshotted key to rate 1 and return (without touching `haveData`);
otherwise run the full calculation and set `haveData`. -/
def updateMaps (log10 : GoFloat → GoFloat) (a : AvgSampleWithMinState) :
    AvgSampleWithMinState :=
  let tmpCounts := a.currentCounts
  let a1 := { a with currentCounts := [] }
  if tmpCounts.length = 0 then
    -- no traffic the last interval: clear the result map
    { a1 with savedSampleRates := [] }
  else
    let sumEvents := sumCounts tmpCounts
    -- goal count: total events over the goal rate (float division in Go)
    let goalCount := GoFloat.div (.fin sumEvents) (.fin (a1.goalSampleRate : ℚ))
    -- check to see if we fall below the minimum
    if sumEvents < (a1.minEventsPerSec : ℚ)
        * ((a1.clearFrequencyDuration : ℚ) / 1000000000) then
      { a1 with savedSampleRates := tmpCounts.map (fun p => (p.1, 1)) }
    else
      let logSum := tmpCounts.foldl
        (fun acc p => GoFloat.add acc (log10 (.fin p.2))) (.fin 0)
      -- note that goalRatio can be Inf when logSum is 0
      let goalRatio := GoFloat.div goalCount logSum
      { a1 with
          savedSampleRates := calculateSampleRates log10 goalRatio
            (tmpCounts.map (fun p => (p.1, GoFloat.fin p.2))),
          haveData := true }

/-- `AvgSampleWithMin.GetSampleRateMulti`. -/
def getSampleRateMulti (a : AvgSampleWithMinState) (key : String) (count : Int) :
    Int × AvgSampleWithMinState :=
  let a1 := { a with requestCount := a.requestCount + 1,
                     eventCount := a.eventCount + count }
  -- Enforce MaxKeys limit on the size of the map
  let a2 :=
    if 0 < a1.maxKeys then
      if (a1.currentCounts.lookup key).isSome
          ∨ (a1.currentCounts.length : Int) < a1.maxKeys then
        { a1 with currentCounts := qMapAdd a1.currentCounts key (count : ℚ) }
      else a1
    else { a1 with currentCounts := qMapAdd a1.currentCounts key (count : ℚ) }
  if a2.haveData = false then (a2.goalSampleRate, a2)
  else ((a2.savedSampleRates.lookup key).getD 1, a2)

/-- `AvgSampleWithMin.GetSampleRate` delegates to `GetSampleRateMulti`. -/
def getSampleRate (a : AvgSampleWithMinState) (key : String) :
    Int × AvgSampleWithMinState :=
  getSampleRateMulti a key 1

end AvgSampleWithMin

/-- C10: a recompute whose snapshot total falls below
`MinEventsPerSec * clearFrequency.Seconds()` replaces `savedSampleRates`
with the all-ones map over the snapshotted keys but leaves `haveData`
unchanged; consequently, while no above-minimum recompute has completed
(`haveData` still false), `GetSampleRateMulti` keeps returning
`GoalSampleRate` — not the stored rate 1 — both before and after such a
below-minimum recompute. -/
theorem avgSampleWithMin_below_min (log10 : GoFloat → GoFloat)
    (a : AvgSampleWithMinState) (key : String) (count : Int)
    (hne : a.currentCounts ≠ [])
    (hmin : AvgSampleWithMin.sumCounts a.currentCounts
      < (a.minEventsPerSec : ℚ) * ((a.clearFrequencyDuration : ℚ) / 1000000000))
    (hnodata : a.haveData = false) :
    (AvgSampleWithMin.updateMaps log10 a).savedSampleRates
        = a.currentCounts.map (fun p => (p.1, 1))
    ∧ (AvgSampleWithMin.updateMaps log10 a).haveData = a.haveData
    ∧ (AvgSampleWithMin.getSampleRateMulti a key count).1 = a.goalSampleRate
    ∧ (AvgSampleWithMin.getSampleRateMulti
        (AvgSampleWithMin.updateMaps log10 a) key count).1 = a.goalSampleRate := by
  have hlen : ¬ a.currentCounts.length = 0 := by
    simpa [List.length_eq_zero] using hne
  have hupd : AvgSampleWithMin.updateMaps log10 a
      = { a with currentCounts := [],
                 savedSampleRates := a.currentCounts.map (fun p => (p.1, 1)) } := by
    rw [AvgSampleWithMin.updateMaps]
    rw [if_neg hlen, if_pos hmin]
  refine ⟨by rw [hupd], by rw [hupd], ?_, ?_⟩
  · rw [AvgSampleWithMin.getSampleRateMulti]
    split_ifs <;> simp [hnodata]
  · rw [hupd, AvgSampleWithMin.getSampleRateMulti]
    split_ifs <;> simp [hnodata]

/-- Witness for C10: 3 events against a floor of 50 events/s over 30 s. -/
theorem avgSampleWithMin_below_min_witness :
    (([("k", 3)] : List (String × ℚ)) ≠ []
      ∧ AvgSampleWithMin.sumCounts [("k", 3)]
          < ((50 : Int) : ℚ) * (((30 * nanosPerSecond : Int) : ℚ) / 1000000000)
      ∧ (AvgSampleWithMinState.mk (30 * nanosPerSecond) 10 0 50 [] [("k", 3)]
          false 0 0).haveData = false)
    ∧ (AvgSampleWithMin.updateMaps (fun _ => GoFloat.fin 0)
        (AvgSampleWithMinState.mk (30 * nanosPerSecond) 10 0 50 [] [("k", 3)]
          false 0 0)).savedSampleRates = [("k", 1)]
    ∧ (AvgSampleWithMin.getSampleRateMulti
        (AvgSampleWithMin.updateMaps (fun _ => GoFloat.fin 0)
          (AvgSampleWithMinState.mk (30 * nanosPerSecond) 10 0 50 [] [("k", 3)]
            false 0 0)) "k" 1).1 = 10 := by
  have h := avgSampleWithMin_below_min (fun _ => GoFloat.fin 0)
    (AvgSampleWithMinState.mk (30 * nanosPerSecond) 10 0 50 [] [("k", 3)] false 0 0)
    "k" 1 (by decide) (by norm_num [AvgSampleWithMin.sumCounts, nanosPerSecond]) rfl
  exact ⟨⟨by decide, by norm_num [AvgSampleWithMin.sumCounts, nanosPerSecond], rfl⟩,
    h.1, h.2.2.2⟩

/-- Witness for C6: with weight 1 and age-out value 1, key "foo" (EMA 1) is
absent from the interval and its decayed average 0 falls below the age-out
value, so it is deleted. -/
theorem updateEMA_ages_out_witness :
    ((([("foo", (1 : ℚ))] : List (String × ℚ)).map Prod.fst).Nodup
      ∧ ([("foo", (1 : ℚ))] : List (String × ℚ)).lookup "foo" = some 1
      ∧ ([("bar", (3 : ℚ))] : List (String × ℚ)).lookup "foo" = none
      ∧ (1 - (1 : ℚ)) * 1 < 1)
    ∧ (updateEMA 1 1 [("foo", 1)] [("bar", 3)]).lookup "foo" = none := by
  refine ⟨⟨by decide, by decide, by decide, by norm_num⟩, ?_⟩
  exact (updateEMA_ages_out 1 1 [("foo", 1)] [("bar", 3)]
    (by decide)).2 "foo" 1 (by decide) (by decide) (by norm_num)
